import Mathlib

/-!
Verification of the `site_word_freq` crawler engine (`finder.go`, `main.go`).

The concurrent run loop of `WordFinder.run` is embedded as a small-step
transition system `Step` over `SysState`.  Machine words and results are
embedded as follows: Go `int` counters become `Int`/`Nat` (no overflow is
relevant at the magnitudes involved), Go maps become association lists or
explicit functions, Go channels become explicit queues in the state, and
the nondeterminism of goroutine scheduling and of `select` is the
nondeterminism of the step relation.  Ghost history fields (`dispatched`,
`delivered`, `submitted`, `completed`, `okPages`) record events so that
the counting claims can be stated.
-/

namespace SiteWordFreq

/-- `SearchRecord` from the worker source file (not included in the extract;
its two fields `url` and `err` are the ones read by `finder.go` and
`main.go`: the task URL and the error of a failed page scan). -/
structure SearchRecord where
  url : String
  err : Option String
deriving DecidableEq, Repr

/-- Outcome of the external Page Processor for one URL: a word-count map
(as an association list), the same-host links found on the page, or an
error.  This is the collaborator consumed by each worker goroutine. -/
inductive PageResult where
  | ok (words : List (String × Nat)) (links : List String)
  | fail (e : String)
deriving DecidableEq, Repr

/-- `kvPair` from `finder.go`: one histogram entry used for sorting. -/
structure kvPair where
  key : String
  value : Nat
deriving DecidableEq, Repr

/-- The `kvSorter.Less` comparator from `finder.go`:
`Less(i, j) = kvs[j].value < kvs[i].value`. -/
def kvLess (i j : kvPair) : Bool := j.value < i.value

/-- The non-strict order corresponding to `kvSorter.Less`: `a` may be
placed before `b` exactly when `Less(b, a)` fails, i.e. when
`b.value ≤ a.value`. -/
def kvGe (a b : kvPair) : Prop := b.value ≤ a.value

instance : DecidableRel kvGe :=
  fun a b => inferInstanceAs (Decidable (b.value ≤ a.value))

instance : IsTotal kvPair kvGe := ⟨fun a b => le_total b.value a.value⟩

instance : IsTrans kvPair kvGe := ⟨fun _ _ _ hab hbc => le_trans hbc hab⟩

/-- The sorting pass of `WordFinder.getResults` (`sort.Sort(sorter)`),
applied to the histogram entries in map-iteration order.  `sort.Sort`
guarantees exactly a permutation of its input ordered under the
comparator (it fixes no tie-break); we realize that contract with an
executable sort producing one such permutation. -/
def sortKv (l : List kvPair) : List kvPair := List.insertionSort kvGe l

/-- `WordFinder.getResults` from `finder.go`: collect the histogram into a
`kvSorter` (here: the entries arrive as a list in map-iteration order,
which Go leaves unspecified), sort it with `kvSorter.Less`, clamp the
requested count `totWords` to the number of entries, and return that
prefix. -/
def getResults (totWords : Nat) (wordsList : List kvPair) : List kvPair :=
  let sorter := sortKv wordsList
  let cnt := if sorter.length < totWords then sorter.length else totWords
  sorter.take cnt

/-- One `wf.words[k] += v` update from `WordFinder.addLinkData`. -/
def bump (m : String → Nat) (k : String) (v : Nat) : String → Nat :=
  fun x => if x = k then m x + v else m x

/-- The merge loop `for k, v := range wds { wf.words[k] += v }` from
`WordFinder.addLinkData`, folding one page's word map into the global
histogram. -/
def mergeWords (m : String → Nat) (wds : List (String × Nat)) : String → Nat :=
  wds.foldl (fun acc kv => bump acc kv.1 kv.2) m

/-- The number of occurrences of `w` contributed by one page's word map. -/
def pageCount (wds : List (String × Nat)) (w : String) : Nat :=
  (wds.map (fun kv => if kv.1 = w then kv.2 else 0)).sum

/-- Total count of `w` over a list of page word maps. -/
def histTotal (pages : List (List (String × Nat))) (w : String) : Nat :=
  (pages.map (fun p => pageCount p w)).sum

/-- The state of one run of `WordFinder.run` together with its worker
goroutines.  Channel contents are explicit:
* `tasksQ` — the `tasks` channel (URLs sent but not yet taken by a worker;
  its capacity bound only delays the coordinator and is modelled as
  unbounded, a superset of the real behaviours, see `Step.procDispatch`);
* `filterBuf` — the buffered contents of `wf.filter` (capacity `cap`);
* `helpers` — batches held by deferred-send goroutines spawned in
  `addLinkData` when the buffered send would block;
* `inFlight` — URLs taken by a worker whose `processLink` has not yet
  reported through `addLinkData`;
* `processing` — the links of the batch the coordinator is currently
  iterating over (`some remaining`), or `none` between batches.
The fields `dispatched`, `delivered`, `submitted`, `completed`, `okPages`
are ghost histories (newest first for `dispatched`/`visited`): every send
into `tasks`, the number of batches received from `filter`, the number of
batches submitted by `addLinkData`, the records handed to `addLinkData`
in completion order, and the word maps of successfully processed pages in
completion order. -/
structure SysState where
  cnt        : Int
  visited    : List String
  interrupt  : Bool
  ctxDone    : Bool
  loopDone   : Bool
  tasksQ     : List String
  inFlight   : List String
  filterBuf  : List (List String)
  helpers    : List (List String)
  processing : Option (List String)
  words      : String → Nat
  errRecords : List SearchRecord
  dispatched : List String
  delivered  : Nat
  submitted  : Nat
  completed  : List SearchRecord
  okPages    : List (List (String × Nat))

/-- `WordFinder.addLinkData` from `finder.go`: under the mutex, append the
record to `errRecords` only when it carries an error and fold the page's
words into the histogram; then try a non-blocking send of the links batch
into `wf.filter` (`select` with `default`), and when the buffered channel
is full hand the batch to a fresh goroutine (`helpers`) instead.  Ghost
fields: `submitted`, `completed` and (for successful pages) `okPages` log
the call. -/
def addLinkData (cap : Nat) (sr : SearchRecord) (wds : List (String × Nat))
    (links : List String) (t : SysState) : SysState :=
  { t with
    errRecords := if sr.err.isSome then t.errRecords ++ [sr] else t.errRecords
    words := mergeWords t.words wds
    submitted := t.submitted + 1
    completed := t.completed ++ [sr]
    okPages := if sr.err.isSome then t.okPages else t.okPages ++ [wds]
    filterBuf := if t.filterBuf.length < cap then t.filterBuf ++ [links] else t.filterBuf
    helpers := if t.filterBuf.length < cap then t.helpers else t.helpers ++ [links] }

/-- The record a worker reports for URL `u`: the URL itself plus the error
of the Page Processor, if any. -/
def resultRecord (oracle : String → PageResult) (u : String) : SearchRecord :=
  match oracle u with
  | .ok _ _ => { url := u, err := none }
  | .fail e => { url := u, err := some e }

/-- The word map a worker reports for URL `u`: the page's word counts on
success, nothing on failure. -/
def resultWords (oracle : String → PageResult) (u : String) : List (String × Nat) :=
  match oracle u with
  | .ok wds _ => wds
  | .fail _ => []

/-- The links batch a worker reports for URL `u`: the discovered same-host
links on success, the empty batch on failure (a failed page does not
expand the frontier). -/
def resultLinks (oracle : String → PageResult) (u : String) : List String :=
  match oracle u with
  | .ok _ links => links
  | .fail _ => []

/-- Modelled from the spec: `SearchRecord.processLink` lives in a source
file missing from the extract.  Per the spec, a worker invokes the Page
Processor on the task's URL and reports the outcome through
`wf.addLinkData` exactly once: on success the word map and link list, on
failure the record carrying the error (a failed page contributes no words
and an empty links batch). -/
def processLink (cap : Nat) (oracle : String → PageResult) (u : String)
    (t : SysState) : SysState :=
  addLinkData cap (resultRecord oracle u) (resultWords oracle u) (resultLinks oracle u) t

/-- The state right after the setup of `WordFinder.run`: the count starts
at 1 for the seed task, the seed has been sent into `tasks`
(`tasks <- SearchRecord{url: wf.startURL.String()}`), and — exactly as in
the source — the `visited` map is still empty: the seed is *not*
pre-inserted. -/
def initState (seed : String) : SysState :=
  { cnt := 1
    visited := []
    interrupt := false
    ctxDone := false
    loopDone := false
    tasksQ := [seed]
    inFlight := []
    filterBuf := []
    helpers := []
    processing := none
    words := fun _ => 0
    errRecords := []
    dispatched := [seed]
    delivered := 0
    submitted := 0
    completed := []
    okPages := [] }

/-- Small-step semantics of one run: interleavings of the coordinator loop
of `WordFinder.run` (lines 89–116), the `P` worker goroutines, the
deferred-send helper goroutines, and the cancellation signal.
* `cancel` — the signal handler calls `cancel()`, closing `ctx.Done()`.
* `takeTask` — a worker receives from `tasks` (`for rec := range tasks`).
* `finishTask` — a worker finishes `processLink`, i.e. runs
  `addLinkData` (workers complete in any order, hence `pre ++ u :: post`).
* `helperFlush` — a deferred-send goroutine completes `wf.filter <- links`
  once the buffer has room.
* `recvInterrupt` / `recvStart` — the coordinator receives a batch
  (`l := <-wf.filter`); with the interrupt flag set the links are
  discarded and the loop goes straight to `cnt--` and the `cnt > 0` test,
  otherwise it starts iterating over the links.
* `procVisited` / `procDispatch` / `procCancel` — one iteration of
  `for _, link := range l`: an already-visited link is skipped; otherwise
  the link is marked visited, `cnt++` runs, and the `select` either sends
  the task (possible whenever the send is ready — in particular the
  `select` may choose it even after `ctx` is done, since a ready send
  races the ready `<-ctx.Done()`) or, when `ctx` is done, takes the
  cancellation branch: `cnt--` undoes the increment (net effect: `cnt`
  unchanged) and the interrupt flag is set.
* `endBatch` — the batch is exhausted: the post-statement `cnt--` runs and
  the loop exits exactly when `cnt > 0` now fails. -/
inductive Step (oracle : String → PageResult) (P cap : Nat) : SysState → SysState → Prop
  | cancel (s : SysState) (h : s.ctxDone = false) :
      Step oracle P cap s { s with ctxDone := true }
  | takeTask (s : SysState) (u : String) (rest : List String)
      (h : s.tasksQ = u :: rest) (hP : s.inFlight.length < P) :
      Step oracle P cap s { s with tasksQ := rest, inFlight := s.inFlight ++ [u] }
  | finishTask (s : SysState) (u : String) (pre post : List String)
      (h : s.inFlight = pre ++ u :: post) :
      Step oracle P cap s (processLink cap oracle u { s with inFlight := pre ++ post })
  | helperFlush (s : SysState) (b : List String) (pre post : List (List String))
      (h : s.helpers = pre ++ b :: post) (hc : s.filterBuf.length < cap) :
      Step oracle P cap s { s with helpers := pre ++ post, filterBuf := s.filterBuf ++ [b] }
  | recvInterrupt (s : SysState) (b : List String) (rest : List (List String))
      (hd : s.loopDone = false) (hp : s.processing = none)
      (hb : s.filterBuf = b :: rest) (hi : s.interrupt = true) :
      Step oracle P cap s
        { s with
          filterBuf := rest
          delivered := s.delivered + 1
          cnt := s.cnt - 1
          loopDone := decide (s.cnt - 1 ≤ 0) }
  | recvStart (s : SysState) (b : List String) (rest : List (List String))
      (hd : s.loopDone = false) (hp : s.processing = none)
      (hb : s.filterBuf = b :: rest) (hi : s.interrupt = false) :
      Step oracle P cap s
        { s with
          filterBuf := rest
          delivered := s.delivered + 1
          processing := some b }
  | procVisited (s : SysState) (link : String) (rest : List String)
      (hp : s.processing = some (link :: rest)) (hv : link ∈ s.visited) :
      Step oracle P cap s { s with processing := some rest }
  | procDispatch (s : SysState) (link : String) (rest : List String)
      (hp : s.processing = some (link :: rest)) (hv : link ∉ s.visited) :
      Step oracle P cap s
        { s with
          visited := link :: s.visited
          cnt := s.cnt + 1
          tasksQ := s.tasksQ ++ [link]
          dispatched := link :: s.dispatched
          processing := some rest }
  | procCancel (s : SysState) (link : String) (rest : List String)
      (hp : s.processing = some (link :: rest)) (hv : link ∉ s.visited)
      (hc : s.ctxDone = true) :
      Step oracle P cap s
        { s with
          visited := link :: s.visited
          interrupt := true
          processing := some rest }
  | endBatch (s : SysState) (hp : s.processing = some []) :
      Step oracle P cap s
        { s with
          processing := none
          cnt := s.cnt - 1
          loopDone := decide (s.cnt - 1 ≤ 0) }

/-- Finitely many steps. -/
inductive Steps (oracle : String → PageResult) (P cap : Nat) : SysState → SysState → Prop
  | refl (s : SysState) : Steps oracle P cap s s
  | tail {s t u : SysState} (h1 : Steps oracle P cap s t) (h2 : Step oracle P cap t u) :
      Steps oracle P cap s u

/-- States of a run reachable from the seeded initial state. -/
def Reachable (oracle : String → PageResult) (P cap : Nat) (seed : String)
    (s : SysState) : Prop :=
  Steps oracle P cap (initState seed) s

/-- 1 while the coordinator is mid-batch (the received batch has been taken
off the channel but its balancing `cnt--` has not run yet), else 0. -/
def pendingFlag (s : SysState) : Nat := if s.processing.isSome then 1 else 0

/-- `getErrors` from `finder.go`: returns `wf.errRecords` as accumulated. -/
def getErrors (s : SysState) : List SearchRecord := s.errRecords

/-- The global invariant of `WordFinder.run`, tying the loop counter to
the pending work and the ghost histories to the visible state. -/
structure Inv (seed : String) (s : SysState) : Prop where
  ledger_chan : s.cnt = (s.tasksQ.length : Int) + (s.inFlight.length : Int)
      + (s.filterBuf.length : Int) + (s.helpers.length : Int) + (pendingFlag s : Int)
  ledger_hist : s.cnt = (s.dispatched.length : Int) - (s.delivered : Int)
      + (pendingFlag s : Int)
  active_pos : s.loopDone = false → 1 ≤ s.cnt
  done_zero : s.loopDone = true → s.cnt = 0
  done_processing : s.loopDone = true → s.processing = none
  visited_nodup : s.visited.Nodup
  dispatched_bound : ∀ u : String,
      s.dispatched.count u ≤ s.visited.count u + (if u = seed then 1 else 0)
  submitted_ledger : s.submitted = s.delivered + s.filterBuf.length + s.helpers.length
  words_hist : ∀ w : String, s.words w = histTotal s.okPages w
  err_log : s.errRecords = s.completed.filter (fun sr => sr.err.isSome)

/-- Demo site: the seed page `"s"` counts the word `"hello"` twice and
links to page `"e"`; fetching `"e"` fails; all other pages are empty. -/
def demoOracle : String → PageResult := fun u =>
  if u = "s" then .ok [("hello", 2)] ["e"]
  else if u = "e" then .fail "boom"
  else .ok [] []

/-- The demo run just after the single worker has taken the seed task. -/
def demoMid : SysState :=
  { initState "s" with tasksQ := [], inFlight := ["s"] }

/-- The demo run after both pages have been processed and the loop has
exited: `"s"` succeeded (two `"hello"`s, one link), `"e"` failed. -/
def demoFinal : SysState :=
  { cnt := 0
    visited := ["e"]
    interrupt := false
    ctxDone := false
    loopDone := true
    tasksQ := []
    inFlight := []
    filterBuf := []
    helpers := []
    processing := none
    words := mergeWords (fun _ => 0) [("hello", 2)]
    errRecords := [{ url := "e", err := some "boom" }]
    dispatched := ["e", "s"]
    delivered := 2
    submitted := 2
    completed := [{ url := "s", err := none }, { url := "e", err := some "boom" }]
    okPages := [[("hello", 2)]] }

/-- A one-page site whose only page links back to the seed URL itself. -/
def loopOracle : String → PageResult := fun _ => .ok [] ["A"]

/-- The self-linking run right after the coordinator has dispatched the
seed URL a second time: the seed was never pre-inserted into `visited`,
so its occurrence in the first batch passes the `visited` filter. -/
def sDouble : SysState :=
  { cnt := 2
    visited := ["A"]
    interrupt := false
    ctxDone := false
    loopDone := false
    tasksQ := ["A"]
    inFlight := []
    filterBuf := []
    helpers := []
    processing := some []
    words := fun _ => 0
    errRecords := []
    dispatched := ["A", "A"]
    delivered := 1
    submitted := 1
    completed := [{ url := "A", err := none }]
    okPages := [[]] }

/-- A site where the seed page links to two fresh pages `"B"` and `"C"`. -/
def branchOracle : String → PageResult := fun u =>
  if u = "A" then .ok [] ["B", "C"] else .ok [] []

/-- The branching run where cancellation fired while the batch
`["B", "C"]` was being iterated: the `select` for `"B"` took the
`ctx.Done()` branch, setting the interrupt flag, and `"C"` is still
pending in the same batch. -/
def sInt : SysState :=
  { cnt := 1
    visited := ["B"]
    interrupt := true
    ctxDone := true
    loopDone := false
    tasksQ := []
    inFlight := []
    filterBuf := []
    helpers := []
    processing := some ["C"]
    words := fun _ => 0
    errRecords := []
    dispatched := ["A"]
    delivered := 1
    submitted := 1
    completed := [{ url := "A", err := none }]
    okPages := [[]] }

/-- The state after the `select` for `"C"` chose the ready send over the
equally ready `ctx.Done()` receive: a task was enqueued although the
interrupt flag was already set. -/
def sIntNext : SysState :=
  { sInt with
    visited := ["C", "B"]
    cnt := 2
    tasksQ := ["C"]
    dispatched := ["C", "A"]
    processing := some [] }

/-- The branching run fully interrupted: the pending link `"C"` has been
dispatched and its batch drained, the coordinator is between batches with
the interrupt flag set, and one task (`"C"`) is still queued. -/
def sDrain : SysState :=
  { cnt := 1
    visited := ["C", "B"]
    interrupt := true
    ctxDone := true
    loopDone := false
    tasksQ := ["C"]
    inFlight := []
    filterBuf := []
    helpers := []
    processing := none
    words := fun _ => 0
    errRecords := []
    dispatched := ["C", "A"]
    delivered := 1
    submitted := 1
    completed := [{ url := "A", err := none }]
    okPages := [[]] }

/-- The terminated interrupted run: the queued task `"C"` was still
processed (the drain), its batch was received and discarded, and the loop
exited; no new URL was dispatched after the interrupt. -/
def sDrainEnd : SysState :=
  { cnt := 0
    visited := ["C", "B"]
    interrupt := true
    ctxDone := true
    loopDone := true
    tasksQ := []
    inFlight := []
    filterBuf := []
    helpers := []
    processing := none
    words := fun _ => 0
    errRecords := []
    dispatched := ["C", "A"]
    delivered := 2
    submitted := 2
    completed := [{ url := "A", err := none }, { url := "C", err := none }]
    okPages := [[], []] }

/-- What Go's `%v` verb prints for the `err` field of a record. -/
def errText : Option String → String
  | none => "<nil>"
  | some e => e

/-- One failed-URL line of `showStatus`:
`fmt.Printf("'%s': error occurred: %v\n", r.url, r.err)`. -/
def errLine (r : SearchRecord) : String :=
  let u := r.url
  let e := errText r.err
  s!"\x27{u}\x27: error occurred: {e}"

/-- One ranked histogram line of `showStatus`:
`fmt.Printf("[%d] %s: %d\n", i+1, kv.key, kv.value)`. -/
def rankLine (i : Nat) (kv : kvPair) : String :=
  let r := i + 1
  let k := kv.key
  let v := kv.value
  s!"[{r}] {k}: {v}"

/-- The ranked lines printed by `showStatus` after the header, in order. -/
def rankedLines (res : List kvPair) : List String :=
  res.enum.map (fun p => rankLine p.1 p.2)

/-- Modelled from the spec: `showStatus` from `main.go`, as the list of
lines it prints.  What is missing: the error-report loop of the source
reads `finder.records`, a field that does not exist on `WordFinder` (the
error list is `errRecords`, already fetched as `errs :=
finder.getErrors()`), so `main.go` does not compile as written; per the
spec the failed-URL lines come from the accumulated error log, which is
what this model iterates. -/
def showStatus (errs : List SearchRecord) (totWords : Nat)
    (res : List kvPair) : List String :=
  (if errs.isEmpty then ["No errors occurred in run."] else errs.map errLine)
    ++ s!"top {totWords} word totals:" :: rankedLines res

/-- Two histogram entries with equal counts, for exercising the sort. -/
def kvA : kvPair := { key := "a", value := 1 }

/-- Two histogram entries with equal counts, for exercising the sort. -/
def kvB : kvPair := { key := "b", value := 1 }

/-- A three-entry histogram with a tie at the top count. -/
def demoKv : List kvPair :=
  [{ key := "a", value := 3 }, { key := "b", value := 5 }, { key := "c", value := 5 }]

theorem kvGe_iff_not_kvLess (a b : kvPair) : kvGe a b ↔ kvLess b a = false := by
  simp [kvGe, kvLess]

/-- Pointwise description of the merge loop of `addLinkData`: folding one
page's word map adds exactly that page's count for every word. -/
theorem mergeWords_apply (wds : List (String × Nat)) (m : String → Nat) (w : String) :
    mergeWords m wds w = m w + pageCount wds w := by
  induction wds generalizing m with
  | nil => simp [mergeWords, pageCount]
  | cons kv rest ih =>
      have hstep : mergeWords m (kv :: rest) = mergeWords (bump m kv.1 kv.2) rest := rfl
      rw [hstep, ih]
      by_cases hw : w = kv.1
      · simp [bump, pageCount, hw]
        omega
      · have hw2 : ¬ kv.1 = w := fun hc => hw hc.symm
        simp [bump, pageCount, hw, hw2]

theorem histTotal_append (pages : List (List (String × Nat)))
    (p : List (String × Nat)) (w : String) :
    histTotal (pages ++ [p]) w = histTotal pages w + pageCount p w := by
  simp [histTotal]

/-- Folding page maps into a histogram one after the other adds up to the
per-word total over all the pages. -/
theorem foldl_mergeWords_eq (pages : List (List (String × Nat)))
    (m : String → Nat) (w : String) :
    List.foldl mergeWords m pages w = m w + histTotal pages w := by
  induction pages generalizing m with
  | nil => simp [histTotal]
  | cons p rest ih =>
      have hstep : List.foldl mergeWords m (p :: rest)
          = List.foldl mergeWords (mergeWords m p) rest := rfl
      rw [hstep, ih, mergeWords_apply]
      simp [histTotal]
      omega

/-- On failure the Page Processor reports no words. -/
theorem resultWords_of_err (oracle : String → PageResult) (u : String)
    (h : (resultRecord oracle u).err.isSome = true) : resultWords oracle u = [] := by
  cases ho : oracle u <;> simp [resultRecord, resultWords, ho] at h ⊢

/-- On success the reported record carries no error. -/
theorem resultRecord_err_of_ok (oracle : String → PageResult) (u : String)
    (h : ¬ (resultRecord oracle u).err.isSome = true) :
    (resultRecord oracle u).err = none := by
  cases ho : oracle u <;> simp [resultRecord, ho] at h ⊢

/-- The two `select` branches of `addLinkData` both leave exactly one more
batch pending delivery (buffered or held by a helper goroutine). -/
theorem addLinkData_chan (cap : Nat) (sr : SearchRecord) (wds : List (String × Nat))
    (links : List String) (t : SysState) :
    (addLinkData cap sr wds links t).filterBuf.length
      + (addLinkData cap sr wds links t).helpers.length
      = t.filterBuf.length + t.helpers.length + 1 := by
  by_cases hc : t.filterBuf.length < cap <;> simp [addLinkData, hc] <;> omega

theorem inv_init (seed : String) : Inv seed (initState seed) := by
  refine ⟨?_, ?_, ?_, ?_, ?_, ?_, ?_, ?_, ?_, ?_⟩ <;>
    simp [initState, pendingFlag, histTotal]
  intro u
  by_cases hu : u = seed <;> simp [hu, List.count_cons]

theorem inv_step {oracle : String → PageResult} {P cap : Nat} {seed : String}
    {s s2 : SysState} (hInv : Inv seed s) (hstep : Step oracle P cap s s2) :
    Inv seed s2 := by
  obtain ⟨lc, lh, ap, dz, dp, vn, db, sl, wh, el⟩ := hInv
  cases hstep with
  | cancel h =>
      exact ⟨lc, lh, ap, dz, dp, vn, db, sl, wh, el⟩
  | takeTask u rest h hP =>
      refine ⟨?_, lh, ap, dz, dp, vn, db, sl, wh, el⟩
      rw [h] at lc
      simp [pendingFlag] at lc ⊢
      omega
  | finishTask u pre post h =>
      have hlen : s.inFlight.length = pre.length + post.length + 1 := by
        rw [h]; simp; omega
      have hchan := addLinkData_chan cap (resultRecord oracle u) (resultWords oracle u)
        (resultLinks oracle u) { s with inFlight := pre ++ post }
      have e_cnt : (processLink cap oracle u { s with inFlight := pre ++ post }).cnt
          = s.cnt := rfl
      have e_vis : (processLink cap oracle u { s with inFlight := pre ++ post }).visited
          = s.visited := rfl
      have e_loop : (processLink cap oracle u { s with inFlight := pre ++ post }).loopDone
          = s.loopDone := rfl
      have e_tasks : (processLink cap oracle u { s with inFlight := pre ++ post }).tasksQ
          = s.tasksQ := rfl
      have e_proc : (processLink cap oracle u { s with inFlight := pre ++ post }).processing
          = s.processing := rfl
      have e_disp : (processLink cap oracle u { s with inFlight := pre ++ post }).dispatched
          = s.dispatched := rfl
      have e_del : (processLink cap oracle u { s with inFlight := pre ++ post }).delivered
          = s.delivered := rfl
      have e_sub : (processLink cap oracle u { s with inFlight := pre ++ post }).submitted
          = s.submitted + 1 := rfl
      have e_infl : (processLink cap oracle u { s with inFlight := pre ++ post }).inFlight
          = pre ++ post := rfl
      have e_comp : (processLink cap oracle u { s with inFlight := pre ++ post }).completed
          = s.completed ++ [resultRecord oracle u] := rfl
      have e_words : (processLink cap oracle u { s with inFlight := pre ++ post }).words
          = mergeWords s.words (resultWords oracle u) := rfl
      have e_err : (processLink cap oracle u { s with inFlight := pre ++ post }).errRecords
          = if (resultRecord oracle u).err.isSome then
              s.errRecords ++ [resultRecord oracle u] else s.errRecords := rfl
      have e_ok : (processLink cap oracle u { s with inFlight := pre ++ post }).okPages
          = if (resultRecord oracle u).err.isSome then
              s.okPages else s.okPages ++ [resultWords oracle u] := rfl
      have e_flag : pendingFlag (processLink cap oracle u { s with inFlight := pre ++ post })
          = pendingFlag s := by
        simp [pendingFlag, e_proc]
      have hchan2 : (processLink cap oracle u { s with inFlight := pre ++ post }).filterBuf.length
            + (processLink cap oracle u { s with inFlight := pre ++ post }).helpers.length
          = s.filterBuf.length + s.helpers.length + 1 := hchan
      refine ⟨?_, ?_, ?_, ?_, ?_, ?_, ?_, ?_, ?_, ?_⟩
      · rw [e_cnt, e_tasks, e_infl, e_flag]
        simp only [List.length_append] at lc ⊢
        omega
      · rw [e_cnt, e_disp, e_del, e_flag]
        exact lh
      · intro hf
        rw [e_loop] at hf
        rw [e_cnt]
        exact ap hf
      · intro ht
        rw [e_loop] at ht
        rw [e_cnt]
        exact dz ht
      · intro ht
        rw [e_loop] at ht
        rw [e_proc]
        exact dp ht
      · rw [e_vis]
        exact vn
      · intro v
        rw [e_disp, e_vis]
        exact db v
      · rw [e_sub, e_del]
        omega
      · intro w
        rw [e_words, e_ok]
        by_cases he : (resultRecord oracle u).err.isSome = true
        · rw [if_pos he, resultWords_of_err oracle u he]
          simpa [mergeWords] using wh w
        · rw [if_neg he, mergeWords_apply, histTotal_append, wh w]
      · rw [e_err, e_comp, List.filter_append]
        by_cases he : (resultRecord oracle u).err.isSome = true
        · rw [if_pos he, el]
          simp [he]
        · rw [if_neg he, el]
          simp [he]
  | helperFlush b pre post h hc =>
      have hlen : s.helpers.length = pre.length + post.length + 1 := by
        rw [h]; simp; omega
      refine ⟨?_, lh, ap, dz, dp, vn, db, ?_, wh, el⟩
      · simp [pendingFlag] at lc ⊢
        omega
      · simp at sl ⊢
        omega
  | recvInterrupt b rest hd hp hb hi =>
      have hlen : s.filterBuf.length = rest.length + 1 := by
        rw [hb]; simp
      have hflag : pendingFlag s = 0 := by simp [pendingFlag, hp]
      have hpos : 1 ≤ s.cnt := ap hd
      refine ⟨?_, ?_, ?_, ?_, ?_, vn, db, ?_, wh, el⟩
      · simp [pendingFlag, hp] at lc ⊢
        omega
      · simp [pendingFlag, hp] at lh ⊢
        omega
      · intro hfalse
        simp at hfalse ⊢
        omega
      · intro htrue
        simp at htrue ⊢
        omega
      · intro _
        exact hp
      · simp at sl ⊢
        omega
  | recvStart b rest hd hp hb hi =>
      have hlen : s.filterBuf.length = rest.length + 1 := by
        rw [hb]; simp
      have hflag : pendingFlag s = 0 := by simp [pendingFlag, hp]
      refine ⟨?_, ?_, ?_, ?_, ?_, vn, db, ?_, wh, el⟩
      · simp [pendingFlag, hp] at lc ⊢
        omega
      · simp [pendingFlag, hp] at lh ⊢
        omega
      · intro _
        exact ap hd
      · intro htrue
        rw [htrue] at hd
        exact absurd hd (by simp)
      · intro htrue
        rw [htrue] at hd
        exact absurd hd (by simp)
      · simp at sl ⊢
        omega
  | procVisited link rest hp hv =>
      have hflag : pendingFlag s = 1 := by simp [pendingFlag, hp]
      have hd : s.loopDone = false := by
        cases hld : s.loopDone
        · rfl
        · rw [dp hld] at hp
          exact absurd hp (by simp)
      refine ⟨?_, ?_, ?_, ?_, ?_, vn, db, sl, wh, el⟩
      · simpa [pendingFlag, hp] using lc
      · simpa [pendingFlag, hp] using lh
      · intro _
        exact ap hd
      · intro htrue
        rw [htrue] at hd
        exact absurd hd (by simp)
      · intro htrue
        rw [htrue] at hd
        exact absurd hd (by simp)
  | procDispatch link rest hp hv =>
      have hflag : pendingFlag s = 1 := by simp [pendingFlag, hp]
      have hd : s.loopDone = false := by
        cases hld : s.loopDone
        · rfl
        · rw [dp hld] at hp
          exact absurd hp (by simp)
      refine ⟨?_, ?_, ?_, ?_, ?_, ?_, ?_, sl, wh, el⟩
      · simp [pendingFlag, hp] at lc ⊢
        omega
      · simp [pendingFlag, hp] at lh ⊢
        omega
      · intro _
        have := ap hd
        simp
        omega
      · intro htrue
        rw [htrue] at hd
        exact absurd hd (by simp)
      · intro htrue
        rw [htrue] at hd
        exact absurd hd (by simp)
      · exact (List.nodup_cons).2 ⟨hv, vn⟩
      · intro v
        have hdb := db v
        by_cases hu : v = link
        · subst hu
          simp [List.count_cons, List.count_eq_zero_of_not_mem hv] at hdb ⊢
          omega
        · have hbu : ¬ (link == v) = true := by
            simp
            exact fun hcb => hu hcb.symm
          simp [List.count_cons, hbu] at hdb ⊢
          omega
  | procCancel link rest hp hv hc =>
      have hflag : pendingFlag s = 1 := by simp [pendingFlag, hp]
      have hd : s.loopDone = false := by
        cases hld : s.loopDone
        · rfl
        · rw [dp hld] at hp
          exact absurd hp (by simp)
      refine ⟨?_, ?_, ?_, ?_, ?_, ?_, ?_, sl, wh, el⟩
      · simpa [pendingFlag, hp] using lc
      · simpa [pendingFlag, hp] using lh
      · intro _
        exact ap hd
      · intro htrue
        rw [htrue] at hd
        exact absurd hd (by simp)
      · intro htrue
        rw [htrue] at hd
        exact absurd hd (by simp)
      · exact (List.nodup_cons).2 ⟨hv, vn⟩
      · intro v
        have hdb := db v
        by_cases hu : v = link
        · subst hu
          simp [List.count_cons] at hdb ⊢
          omega
        · have hbu : ¬ (link == v) = true := by
            simp
            exact fun hcb => hu hcb.symm
          simp [List.count_cons, hbu] at hdb ⊢
          omega
  | endBatch hp =>
      have hflag : pendingFlag s = 1 := by simp [pendingFlag, hp]
      have hd : s.loopDone = false := by
        cases hld : s.loopDone
        · rfl
        · rw [dp hld] at hp
          exact absurd hp (by simp)
      have hpos : 1 ≤ s.cnt := ap hd
      refine ⟨?_, ?_, ?_, ?_, ?_, vn, db, sl, wh, el⟩
      · simp [pendingFlag, hp] at lc ⊢
        omega
      · simp [pendingFlag, hp] at lh ⊢
        omega
      · intro hfalse
        simp at hfalse ⊢
        omega
      · intro htrue
        simp at htrue ⊢
        omega
      · intro _
        rfl

theorem inv_reachable {oracle : String → PageResult} {P cap : Nat} {seed : String}
    {s : SysState} (h : Reachable oracle P cap seed s) : Inv seed s := by
  induction h with
  | refl => exact inv_init seed
  | tail h1 h2 ih => exact inv_step ih h2

/-- When the run loop has exited, the counting invariant forces every queue
to be empty: nothing is left in `tasks`, no worker holds a task, no batch
is buffered in `filter` or held by a deferred-send helper goroutine, and
no batch is half-processed.  This is what makes the `close` calls at the
end of `WordFinder.run` safe. -/
theorem done_state_empty {seed : String} {s : SysState} (hInv : Inv seed s)
    (hd : s.loopDone = true) :
    s.tasksQ = [] ∧ s.inFlight = [] ∧ s.filterBuf = [] ∧ s.helpers = []
      ∧ s.processing = none ∧ s.cnt = 0 := by
  have hz := hInv.done_zero hd
  have hpn := hInv.done_processing hd
  have hflag : pendingFlag s = 0 := by simp [pendingFlag, hpn]
  have hlc := hInv.ledger_chan
  rw [hz, hflag] at hlc
  have h1 : s.tasksQ.length = 0 := by omega
  have h2 : s.inFlight.length = 0 := by omega
  have h3 : s.filterBuf.length = 0 := by omega
  have h4 : s.helpers.length = 0 := by omega
  exact ⟨List.length_eq_zero.1 h1, List.length_eq_zero.1 h2,
    List.length_eq_zero.1 h3, List.length_eq_zero.1 h4, hpn, hz⟩

/-- After the loop has exited, every further step leaves the terminated
state terminated with all queues still empty: the only enabled transition
is the external cancellation flip, which touches no channel, so no send
can ever follow the `close` calls. -/
theorem step_from_done {oracle : String → PageResult} {P cap : Nat} {seed : String}
    {s s2 : SysState} (hInv : Inv seed s) (hdone : s.loopDone = true)
    (hstep : Step oracle P cap s s2) :
    s2.loopDone = true ∧ s2.cnt = 0 ∧ s2.tasksQ = [] ∧ s2.inFlight = []
      ∧ s2.filterBuf = [] ∧ s2.helpers = [] ∧ s2.processing = none := by
  obtain ⟨ht, hi, hf, hh, hpn, hz⟩ := done_state_empty hInv hdone
  cases hstep with
  | cancel h =>
      exact ⟨hdone, hz, ht, hi, hf, hh, hpn⟩
  | takeTask u rest h hP =>
      rw [ht] at h
      simp at h
  | finishTask u pre post h =>
      rw [hi] at h
      simp at h
  | helperFlush b pre post h hc =>
      rw [hh] at h
      simp at h
  | recvInterrupt b rest hd hp hb hi2 =>
      rw [hdone] at hd
      exact absurd hd (by simp)
  | recvStart b rest hd hp hb hi2 =>
      rw [hdone] at hd
      exact absurd hd (by simp)
  | procVisited link rest hp hv =>
      rw [hpn] at hp
      simp at hp
  | procDispatch link rest hp hv =>
      rw [hpn] at hp
      simp at hp
  | procCancel link rest hp hv hc =>
      rw [hpn] at hp
      simp at hp
  | endBatch hp =>
      rw [hpn] at hp
      simp at hp

/-- With the interrupt flag set and no batch mid-processing, a single step
can neither dispatch a task nor begin iterating over a batch's links:
batches received after the flag was set are drained with their links
discarded. -/
theorem interrupted_idle_step {oracle : String → PageResult} {P cap : Nat}
    {s s2 : SysState} (hstep : Step oracle P cap s s2)
    (hi : s.interrupt = true) (hp : s.processing = none) :
    s2.dispatched = s.dispatched ∧ s2.interrupt = true ∧ s2.processing = none := by
  cases hstep with
  | cancel h => exact ⟨rfl, hi, hp⟩
  | takeTask u rest h hP => exact ⟨rfl, hi, hp⟩
  | finishTask u pre post h => exact ⟨rfl, hi, hp⟩
  | helperFlush b pre post h hc => exact ⟨rfl, hi, hp⟩
  | recvInterrupt b rest hd hp2 hb hi2 => exact ⟨rfl, hi, hp⟩
  | recvStart b rest hd hp2 hb hi2 =>
      rw [hi] at hi2
      exact absurd hi2 (by simp)
  | procVisited link rest hp2 hv =>
      rw [hp] at hp2
      simp at hp2
  | procDispatch link rest hp2 hv =>
      rw [hp] at hp2
      simp at hp2
  | procCancel link rest hp2 hv hc =>
      rw [hp] at hp2
      simp at hp2
  | endBatch hp2 =>
      rw [hp] at hp2
      simp at hp2

/-- `interrupted_idle_step` pumped along any number of steps. -/
theorem interrupted_idle_steps {oracle : String → PageResult} {P cap : Nat}
    {s s2 : SysState} (h : Steps oracle P cap s s2)
    (hi : s.interrupt = true) (hp : s.processing = none) :
    s2.dispatched = s.dispatched ∧ s2.interrupt = true ∧ s2.processing = none := by
  induction h with
  | refl => exact ⟨rfl, hi, hp⟩
  | tail h1 h2 ih =>
      obtain ⟨e, i2, p2⟩ := ih
      obtain ⟨e2, i3, p3⟩ := interrupted_idle_step h2 i2 p2
      exact ⟨e2.trans e, i3, p3⟩

theorem reach_demoMid : Reachable demoOracle 1 5 "s" demoMid :=
  Steps.tail (Steps.refl _) (Step.takeTask (initState "s") "s" [] rfl (by decide))

theorem reach_demoFinal : Reachable demoOracle 1 5 "s" demoFinal := by
  have h1 : Steps demoOracle 1 5 (initState "s") _ :=
    Steps.tail (Steps.refl _) (Step.takeTask _ "s" [] rfl (by decide))
  have h2 := Steps.tail h1 (Step.finishTask _ "s" [] [] rfl)
  have h3 := Steps.tail h2 (Step.recvStart _ ["e"] [] rfl rfl (by decide) rfl)
  have h4 := Steps.tail h3 (Step.procDispatch _ "e" [] rfl (by decide))
  have h5 := Steps.tail h4 (Step.endBatch _ rfl)
  have h6 := Steps.tail h5 (Step.takeTask _ "e" [] (by decide) (by decide))
  have h7 := Steps.tail h6 (Step.finishTask _ "e" [] [] rfl)
  have h8 := Steps.tail h7 (Step.recvStart _ [] [] rfl rfl (by decide) rfl)
  have h9 := Steps.tail h8 (Step.endBatch _ rfl)
  exact h9

theorem reach_sDouble : Reachable loopOracle 1 5 "A" sDouble := by
  have h1 : Steps loopOracle 1 5 (initState "A") _ :=
    Steps.tail (Steps.refl _) (Step.takeTask _ "A" [] rfl (by decide))
  have h2 := Steps.tail h1 (Step.finishTask _ "A" [] [] rfl)
  have h3 := Steps.tail h2 (Step.recvStart _ ["A"] [] rfl rfl (by decide) rfl)
  have h4 := Steps.tail h3 (Step.procDispatch _ "A" [] rfl (by decide))
  exact h4

theorem reach_sInt : Reachable branchOracle 1 5 "A" sInt := by
  have h1 : Steps branchOracle 1 5 (initState "A") _ :=
    Steps.tail (Steps.refl _) (Step.takeTask _ "A" [] rfl (by decide))
  have h2 := Steps.tail h1 (Step.finishTask _ "A" [] [] rfl)
  have h3 := Steps.tail h2 (Step.cancel _ rfl)
  have h4 := Steps.tail h3 (Step.recvStart _ ["B", "C"] [] rfl rfl (by decide) rfl)
  have h5 := Steps.tail h4 (Step.procCancel _ "B" ["C"] rfl (by decide) rfl)
  exact h5

theorem step_sInt_sIntNext : Step branchOracle 1 5 sInt sIntNext :=
  Step.procDispatch sInt "C" [] rfl (by decide)

theorem reach_sDrain : Reachable branchOracle 1 5 "A" sDrain := by
  have h6 := Steps.tail reach_sInt (Step.procDispatch sInt "C" [] rfl (by decide))
  have h7 := Steps.tail h6 (Step.endBatch _ rfl)
  exact h7

theorem steps_sDrain_sDrainEnd : Steps branchOracle 1 5 sDrain sDrainEnd := by
  have h1 : Steps branchOracle 1 5 sDrain _ :=
    Steps.tail (Steps.refl _) (Step.takeTask _ "C" [] rfl (by decide))
  have h2 := Steps.tail h1 (Step.finishTask _ "C" [] [] rfl)
  have h3 := Steps.tail h2 (Step.recvInterrupt _ [] [] rfl rfl (by decide) rfl)
  exact h3

/-- Claim C1: for every run of the coordinator loop (`WordFinder.run`),
the outstanding count starts at 1 for the seed task, is (net) incremented
by exactly 1 for each newly enqueued task and decremented by exactly 1
for each result batch received from the filter channel (the ledger
`cnt = #dispatched - #delivered + pendingFlag`, where the flag covers the
batch whose balancing decrement has not run yet), and the loop has
terminated if and only if the count is exactly 0, which it reaches
exactly once: the count stays at least 1 while the loop runs, and once
the loop has exited every further step keeps it at 0. -/
theorem run_count_accounting (oracle : String → PageResult) (P cap : Nat)
    (seed : String) (s : SysState) (h : Reachable oracle P cap seed s) :
    (initState seed).cnt = 1
    ∧ (initState seed).dispatched = [seed]
    ∧ s.cnt = (s.dispatched.length : Int) - (s.delivered : Int) + (pendingFlag s : Int)
    ∧ (s.loopDone = true ↔ s.cnt = 0)
    ∧ (s.loopDone = false → 1 ≤ s.cnt)
    ∧ (∀ s2, Step oracle P cap s s2 → s.loopDone = true →
        s2.loopDone = true ∧ s2.cnt = 0) := by
  have inv := inv_reachable h
  refine ⟨rfl, rfl, inv.ledger_hist, ⟨inv.done_zero, ?_⟩, inv.active_pos, ?_⟩
  · intro hz
    cases hld : s.loopDone
    · have := inv.active_pos hld
      omega
    · rfl
  · intro s2 hstep hdone
    have := step_from_done inv hdone hstep
    exact ⟨this.1, this.2.1⟩

/-- Claim C1 witness: the accounting evaluated on the finished demo run
(two dispatches, two deliveries, counter at 0, loop exited). -/
theorem run_count_accounting_witness :
    (initState "s").cnt = 1
    ∧ demoFinal.cnt = (demoFinal.dispatched.length : Int) - (demoFinal.delivered : Int)
        + (pendingFlag demoFinal : Int)
    ∧ (demoFinal.loopDone = true ↔ demoFinal.cnt = 0) := by
  obtain ⟨h1, _, h3, h4, _, _⟩ :=
    run_count_accounting demoOracle 1 5 "s" demoFinal reach_demoFinal
  exact ⟨h1, h3, h4⟩

/-- Claim C2: when the loop of `WordFinder.run` has exited (the point
where `close(tasks)` and `close(wf.filter)` run, which the monotone
`loopDone` flag makes happen exactly once per run), the task channel, the
worker pool, the filter buffer and the deferred-send helpers are all
empty, and every subsequent step keeps them empty with the loop still
terminated — so no send on either channel can occur after the close. -/
theorem channels_close_once_safe (oracle : String → PageResult) (P cap : Nat)
    (seed : String) (s : SysState) (h : Reachable oracle P cap seed s)
    (hdone : s.loopDone = true) :
    s.tasksQ = [] ∧ s.inFlight = [] ∧ s.filterBuf = [] ∧ s.helpers = []
    ∧ s.processing = none
    ∧ (∀ s2, Step oracle P cap s s2 → s2.loopDone = true ∧ s2.tasksQ = []
        ∧ s2.inFlight = [] ∧ s2.filterBuf = [] ∧ s2.helpers = []) := by
  have inv := inv_reachable h
  obtain ⟨ht, hi, hf, hh, hpn, _⟩ := done_state_empty inv hdone
  refine ⟨ht, hi, hf, hh, hpn, ?_⟩
  intro s2 hstep
  obtain ⟨d1, _, d3, d4, d5, d6, _⟩ := step_from_done inv hdone hstep
  exact ⟨d1, d3, d4, d5, d6⟩

/-- Claim C2 witness: the finished demo run has everything drained. -/
theorem channels_close_once_safe_witness :
    demoFinal.tasksQ = [] ∧ demoFinal.inFlight = [] ∧ demoFinal.filterBuf = []
    ∧ demoFinal.helpers = [] := by
  obtain ⟨h1, h2, h3, h4, _, _⟩ :=
    channels_close_once_safe demoOracle 1 5 "s" demoFinal reach_demoFinal rfl
  exact ⟨h1, h2, h3, h4⟩

/-- Claim C3 counterexample: the run loop of `finder.go` never inserts
the seed into `visited` (`tasks <- SearchRecord{...}` at line 84 has no
accompanying `wf.visited[...] = true`), so at the start of the run the
seed is not in the visited set, and on a site whose page links back to
the seed URL the seed passes the `visited` filter and is dispatched a
second time — `dispatched` counts it twice. -/
theorem seed_not_previsited_cex :
    "A" ∉ (initState "A").visited
    ∧ Reachable loopOracle 1 5 "A" sDouble
    ∧ sDouble.dispatched.count "A" = 2 :=
  ⟨by decide, reach_sDouble, by decide⟩

/-- Claim C3 (amended): the visited set starts empty — the seed is *not*
pre-inserted.  Every URL is inserted into the visited set at most once
per run (the set is duplicate-free); every URL other than the seed is
dispatched into the task channel at most once; the seed itself is
dispatched once at startup and at most once more, if some page links back
to it. -/
theorem visited_dispatch_bounds (oracle : String → PageResult) (P cap : Nat)
    (seed : String) (s : SysState) (h : Reachable oracle P cap seed s) :
    (initState seed).visited = []
    ∧ s.visited.Nodup
    ∧ (∀ u : String, u ≠ seed → s.dispatched.count u ≤ 1)
    ∧ s.dispatched.count seed ≤ 2 := by
  have inv := inv_reachable h
  refine ⟨rfl, inv.visited_nodup, ?_, ?_⟩
  · intro u hu
    have hb := inv.dispatched_bound u
    have hv := (List.nodup_iff_count_le_one.1 inv.visited_nodup) u
    rw [if_neg hu] at hb
    omega
  · have hb := inv.dispatched_bound seed
    have hv := (List.nodup_iff_count_le_one.1 inv.visited_nodup) seed
    rw [if_pos rfl] at hb
    omega

/-- Claim C3 (amended) witness: evaluated on the self-linking run, where
the seed bound 2 is attained and the visited set is duplicate-free. -/
theorem visited_dispatch_bounds_witness :
    sDouble.visited.Nodup ∧ sDouble.dispatched.count "B" ≤ 1
    ∧ sDouble.dispatched.count "A" ≤ 2 := by
  obtain ⟨_, h2, h3, h4⟩ := visited_dispatch_bounds loopOracle 1 5 "A" sDouble reach_sDouble
  exact ⟨h2, h3 "B" (by decide), h4⟩

/-- Claim C4 counterexample: with the interrupt flag already set
(cancellation won the `select` for link `"B"`), the coordinator is still
iterating the same batch and the `select` for the next link `"C"` races a
ready send against the ready `ctx.Done()`; the send can win, enqueuing a
new task after the flag was set — the inner `for _, link := range l` loop
has no early exit. -/
theorem interrupt_enqueue_cex :
    Reachable branchOracle 1 5 "A" sInt
    ∧ sInt.interrupt = true
    ∧ Step branchOracle 1 5 sInt sIntNext
    ∧ sIntNext.tasksQ = sInt.tasksQ ++ ["C"]
    ∧ sIntNext.dispatched.length = sInt.dispatched.length + 1 :=
  ⟨reach_sInt, rfl, step_sInt_sIntNext, rfl, rfl⟩

/-- Claim C4 (amended): once the interrupt flag is set *and* the batch
that was being processed when it was set is finished, no further task is
ever enqueued for the remainder of the run: every later batch is received
with its links discarded (`if wf.interrupt { continue }`), the flag stays
set, and the dispatch history never grows again.  (Remaining links of the
batch being processed when cancellation won may still be dispatched,
because each of them re-runs the `select` race — see the
counterexample.) -/
theorem interrupt_no_later_batch_dispatch (oracle : String → PageResult)
    (P cap : Nat) (seed : String) (s s2 : SysState)
    (hreach : Reachable oracle P cap seed s)
    (hi : s.interrupt = true) (hp : s.processing = none)
    (hsteps : Steps oracle P cap s s2) :
    s2.dispatched = s.dispatched ∧ s2.interrupt = true ∧ s2.processing = none :=
  interrupted_idle_steps hsteps hi hp

/-- Claim C4 (amended) witness: the interrupted branching run drains its
queued task to termination without dispatching anything new. -/
theorem interrupt_no_later_batch_dispatch_witness :
    sDrainEnd.dispatched = sDrain.dispatched ∧ sDrainEnd.interrupt = true := by
  obtain ⟨h1, h2, _⟩ := interrupt_no_later_batch_dispatch branchOracle 1 5 "A"
    sDrain sDrainEnd reach_sDrain rfl rfl steps_sDrain_sDrainEnd
  exact ⟨h1, h2⟩

/-- Claim C5: a worker's result report never blocks: whenever a worker
holds a finished task, the `addLinkData` step is enabled as a single
non-waiting transition — the `select` either completes the buffered send
or hands the batch to a helper goroutine — and it always leaves exactly
one more batch pending.  Conservation: at every reachable state the
batches submitted equal the batches delivered plus the batches still
pending (buffered or helper-held), so no batch is lost or duplicated; in
particular when the run loop has terminated every submitted batch has
been delivered to the coordinator exactly once. -/
theorem addLinkData_nonblocking_delivery (oracle : String → PageResult)
    (P cap : Nat) (seed : String) (s : SysState)
    (h : Reachable oracle P cap seed s) :
    (∀ pre u post, s.inFlight = pre ++ u :: post →
        Step oracle P cap s (processLink cap oracle u { s with inFlight := pre ++ post })
        ∧ (processLink cap oracle u { s with inFlight := pre ++ post }).submitted
            = s.submitted + 1
        ∧ (processLink cap oracle u { s with inFlight := pre ++ post }).filterBuf.length
            + (processLink cap oracle u { s with inFlight := pre ++ post }).helpers.length
            = s.filterBuf.length + s.helpers.length + 1)
    ∧ s.submitted = s.delivered + s.filterBuf.length + s.helpers.length
    ∧ (s.loopDone = true → s.submitted = s.delivered) := by
  have inv := inv_reachable h
  refine ⟨?_, inv.submitted_ledger, ?_⟩
  · intro pre u post hin
    exact ⟨Step.finishTask s u pre post hin, rfl,
      addLinkData_chan cap (resultRecord oracle u) (resultWords oracle u)
        (resultLinks oracle u) { s with inFlight := pre ++ post }⟩
  · intro hdone
    obtain ⟨_, _, hf, hh, _, _⟩ := done_state_empty inv hdone
    have hsl := inv.submitted_ledger
    rw [hf, hh] at hsl
    simpa using hsl

/-- Claim C5 witness: the report step for the in-flight seed task of the
demo run submits exactly one batch, and the finished demo run has
delivered exactly what was submitted. -/
theorem addLinkData_nonblocking_delivery_witness :
    (processLink 5 demoOracle "s" { demoMid with inFlight := [] }).submitted
        = demoMid.submitted + 1
    ∧ demoFinal.submitted = demoFinal.delivered := by
  have h1 := (addLinkData_nonblocking_delivery demoOracle 1 5 "s" demoMid
    reach_demoMid).1 [] "s" [] rfl
  have h2 := (addLinkData_nonblocking_delivery demoOracle 1 5 "s" demoFinal
    reach_demoFinal).2.2 rfl
  exact ⟨h1.2.1, h2⟩

/-- Claim C6: at every reachable state the histogram value of every word
equals the sum of that word's counts over the word maps of the
successfully processed pages, and the merge of `addLinkData`
(`wf.words[k] += v`) is order-independent: folding any permutation of the
page maps yields the same histogram. -/
theorem histogram_additive_merge (oracle : String → PageResult) (P cap : Nat)
    (seed : String) (s : SysState) (h : Reachable oracle P cap seed s) :
    (∀ w, s.words w = histTotal s.okPages w)
    ∧ (∀ (pages1 pages2 : List (List (String × Nat))) (m : String → Nat) (w : String),
        pages1.Perm pages2 →
          List.foldl mergeWords m pages1 w = List.foldl mergeWords m pages2 w) := by
  have inv := inv_reachable h
  refine ⟨inv.words_hist, ?_⟩
  intro p1 p2 m w hperm
  rw [foldl_mergeWords_eq, foldl_mergeWords_eq]
  have hsum : histTotal p1 w = histTotal p2 w :=
    List.Perm.sum_eq (hperm.map (fun p => pageCount p w))
  rw [hsum]

/-- Claim C6 witness: the demo run's histogram has `"hello" = 2` as the
page sum, and a two-page fold is insensitive to swapping the pages. -/
theorem histogram_additive_merge_witness :
    demoFinal.words "hello" = histTotal demoFinal.okPages "hello"
    ∧ List.foldl mergeWords (fun _ => 0) [[("a", 1)], [("b", 2)]] "a"
        = List.foldl mergeWords (fun _ => 0) [[("b", 2)], [("a", 1)]] "a" := by
  have h := histogram_additive_merge demoOracle 1 5 "s" demoFinal reach_demoFinal
  exact ⟨h.1 "hello", h.2 _ _ _ "a" (List.Perm.swap [("b", 2)] [("a", 1)] [])⟩

/-- Claim C7 (code bug in `main.go`): the spec-intended `showStatus`
prints, for each failed URL in the error log, one line with the URL and
its error, then the header `top N word totals:`, then the ranked
`[rank] word: count` lines from `getResults`.  The source itself ranges
over `finder.records`, a field `WordFinder` does not have (`main.go`
line 77), so the program does not compile; this theorem is about the
spec-modelled `showStatus`. -/
theorem showStatus_output_shape (errs : List SearchRecord) (totWords : Nat)
    (res : List kvPair) (h : errs ≠ []) :
    showStatus errs totWords res
      = errs.map errLine ++ s!"top {totWords} word totals:" :: rankedLines res := by
  have hne : errs.isEmpty = false := by
    cases errs
    · exact absurd rfl h
    · rfl
  simp [showStatus, hne]

/-- Claim C7 witness: the modelled output for one failed URL and one
histogram entry. -/
theorem showStatus_output_shape_witness :
    showStatus [{ url := "http://x", err := some "boom" }] 10
        [{ key := "hello", value := 2 }]
      = ["\x27http://x\x27: error occurred: boom", "top 10 word totals:",
          "[1] hello: 2"] := by
  rw [showStatus_output_shape _ _ _ (by decide)]
  decide

/-- Claim C8 counterexample: two presentations of the *same* histogram
(the same set of word/count pairs, handed over in the two orders a Go map
iteration may produce) yield different output sequences from `getResults`
when counts tie — the tie order is not deterministic in the histogram. -/
theorem getResults_tie_order_cex :
    [kvA, kvB].Perm [kvB, kvA]
    ∧ getResults 10 [kvA, kvB] ≠ getResults 10 [kvB, kvA] := by
  refine ⟨List.Perm.swap kvB kvA [], ?_⟩
  decide

/-- Claim C8 (amended): `getResults` returns the `min(n, #entries)`
highest-count histogram entries in non-increasing count order — the
output is a prefix of a sorted permutation of the entries, and every
returned entry's count is at least every dropped entry's count — but the
order among entries with equal counts follows the unspecified map
iteration order, so the same histogram need not always yield the same
output sequence (see the counterexample). -/
theorem getResults_topn_sorted (n : Nat) (l : List kvPair) :
    (getResults n l).length = min n l.length
    ∧ l.Perm (sortKv l)
    ∧ List.Sorted kvGe (sortKv l)
    ∧ getResults n l = (sortKv l).take (min n l.length)
    ∧ (∀ p, p ∈ getResults n l → ∀ q, q ∈ (sortKv l).drop (min n l.length) →
        q.value ≤ p.value) := by
  have hperm : (sortKv l).Perm l := List.perm_insertionSort kvGe l
  have hsort : List.Sorted kvGe (sortKv l) := List.sorted_insertionSort kvGe l
  have hlen : (sortKv l).length = l.length := hperm.length_eq
  have hmin : (if l.length < n then l.length else n) = min n l.length := by
    rw [Nat.min_def]
    by_cases hc : l.length < n
    · rw [if_pos hc, if_neg (by omega)]
    · rw [if_neg hc, if_pos (by omega)]
  have heq : getResults n l = (sortKv l).take (min n l.length) := by
    simp only [getResults, hlen, hmin]
  refine ⟨?_, hperm.symm, hsort, heq, ?_⟩
  · rw [heq, List.length_take, hlen]
    exact Nat.min_eq_left (Nat.min_le_right n l.length)
  · intro p hp q hq
    have hpw : List.Pairwise kvGe
        ((sortKv l).take (min n l.length) ++ (sortKv l).drop (min n l.length)) := by
      rw [List.take_append_drop]
      exact hsort
    have hcross := (List.pairwise_append.1 hpw).2.2
    rw [heq] at hp
    exact hcross p hp q hq

/-- Claim C8 (amended) witness: on a three-entry histogram with a tied
top count, the single returned entry is a highest-count one and
dominates the dropped entries. -/
theorem getResults_topn_sorted_witness :
    (getResults 1 demoKv).length = min 1 demoKv.length
    ∧ getResults 1 demoKv = (sortKv demoKv).take (min 1 demoKv.length)
    ∧ ({ key := "a", value := 3 } : kvPair).value
        ≤ ({ key := "b", value := 5 } : kvPair).value := by
  obtain ⟨h1, _, _, h4, h5⟩ := getResults_topn_sorted 1 demoKv
  exact ⟨h1, h4,
    h5 { key := "b", value := 5 } (by decide) { key := "a", value := 3 } (by decide)⟩

/-- Claim C9: the error log holds exactly the records of failed pages in
completion order — `addLinkData` appends a record exactly when its error
field is non-nil, never for nil errors — and `getErrors` returns the
accumulated list unchanged, which is empty when no page failed. -/
theorem errlog_spec (oracle : String → PageResult) (P cap : Nat)
    (seed : String) (s : SysState) (h : Reachable oracle P cap seed s) :
    getErrors s = s.completed.filter (fun sr => sr.err.isSome)
    ∧ (∀ (capacity : Nat) (sr : SearchRecord) (wds : List (String × Nat))
        (links : List String) (t : SysState),
        (sr.err = none → (addLinkData capacity sr wds links t).errRecords = t.errRecords)
        ∧ (∀ e, sr.err = some e →
            (addLinkData capacity sr wds links t).errRecords = t.errRecords ++ [sr]))
    ∧ (s.completed.filter (fun sr => sr.err.isSome) = [] → getErrors s = []) := by
  have inv := inv_reachable h
  refine ⟨inv.err_log, ?_, ?_⟩
  · intro capacity sr wds links t
    constructor
    · intro hn
      simp [addLinkData, hn]
    · intro e he
      simp [addLinkData, he]
  · intro hnil
    show s.errRecords = []
    rw [inv.err_log, hnil]

/-- Claim C9 witness: the demo run's error log holds exactly the one
failed page, in the filtered completion order. -/
theorem errlog_spec_witness :
    getErrors demoFinal = [{ url := "e", err := some "boom" }]
    ∧ getErrors demoFinal = demoFinal.completed.filter (fun sr => sr.err.isSome) := by
  have h := errlog_spec demoOracle 1 5 "s" demoFinal reach_demoFinal
  exact ⟨by rw [h.1]; decide, h.1⟩

/-- Claim C10: every `addLinkData` call — also for a failed page, whose
batch is empty — submits exactly one links batch towards the filter
channel, and on a terminated run the number of delivered batches (the
count of `cnt--` decrements for received batches) equals the number of
dispatched tasks, with every submitted batch delivered. -/
theorem addLinkData_submits_once (oracle : String → PageResult) (P cap : Nat)
    (seed : String) (s : SysState) (h : Reachable oracle P cap seed s) :
    (∀ (capacity : Nat) (sr : SearchRecord) (wds : List (String × Nat))
        (links : List String) (t : SysState),
        (addLinkData capacity sr wds links t).submitted = t.submitted + 1
        ∧ (addLinkData capacity sr wds links t).filterBuf.length
            + (addLinkData capacity sr wds links t).helpers.length
            = t.filterBuf.length + t.helpers.length + 1)
    ∧ (∀ (u e : String) (t : SysState), oracle u = .fail e →
        (processLink cap oracle u t).submitted = t.submitted + 1)
    ∧ (s.loopDone = true →
        (s.delivered : Int) = (s.dispatched.length : Int) ∧ s.submitted = s.delivered) := by
  have inv := inv_reachable h
  refine ⟨?_, ?_, ?_⟩
  · intro capacity sr wds links t
    exact ⟨rfl, addLinkData_chan capacity sr wds links t⟩
  · intro u e t _
    rfl
  · intro hdone
    obtain ⟨_, _, hf, hh, hpn, hz⟩ := done_state_empty inv hdone
    have hlh := inv.ledger_hist
    have hflag : pendingFlag s = 0 := by simp [pendingFlag, hpn]
    rw [hz, hflag] at hlh
    have hsl := inv.submitted_ledger
    rw [hf, hh] at hsl
    constructor
    · push_cast at hlh ⊢
      omega
    · simpa using hsl

/-- Claim C10 witness: a failed-page report submits exactly one batch,
and the finished demo run delivered one batch per dispatched task. -/
theorem addLinkData_submits_once_witness :
    (addLinkData 5 { url := "e", err := some "boom" } [] [] demoMid).submitted
        = demoMid.submitted + 1
    ∧ (demoFinal.delivered : Int) = (demoFinal.dispatched.length : Int) := by
  have h := addLinkData_submits_once demoOracle 1 5 "s" demoFinal reach_demoFinal
  exact ⟨(h.1 5 { url := "e", err := some "boom" } [] [] demoMid).1, (h.2.2 rfl).1⟩

end SiteWordFreq
